import Mathlib

/-!
Shallow embedding of the `billy` database router (`src/db.go`) and proofs
about its key codec, shelf routing, slot-size generators, open-time
validation and close behaviour.  Machine integers are modelled as `Nat`
with explicit `% 2 ^ 32` (for `uint32`) where overflow matters; Go slice
indexing out of range (a runtime panic) is modelled as `Option.none`;
fallible operations return `Except String`.
-/

namespace Billy

/-- Modelled from the spec: the per-slot header size in bytes
(`itemHeaderSize`), defined in the shelf code that is not included under
`src/`.  The spec (and the doc comment of `SlotSizeFn` in `db.go`) states
it is 4 bytes. -/
def itemHeaderSize : Nat := 4

/-- Shelf-index decomposition performed by `database.Get` (db.go line 140):
`id := int(key>>28) & 0xfff`. -/
def getShelfIndex (key : Nat) : Nat := (key >>> 28) &&& 0xfff

/-- Local-offset decomposition performed by `database.Get` (db.go line 141):
`key & 0x0FFFFFFF` (28-bit mask). -/
def getLocalOffset (key : Nat) : Nat := key &&& 0x0FFFFFFF

/-- Shelf-index decomposition performed by `database.Delete` (db.go line 149):
`id := int(key>>28) & 0xfff`, identical to `Get`. -/
def deleteShelfIndex (key : Nat) : Nat := (key >>> 28) &&& 0xfff

/-- Local-offset decomposition performed by `database.Delete` (db.go line 150):
`key & 0x00FFFFFF` — a 24-bit mask, unlike the 28-bit mask used by `Get`. -/
def deleteLocalOffset (key : Nat) : Nat := key &&& 0x00FFFFFF

/-- Key encoding performed by `database.Put` (db.go line 134):
`slot | uint64(index)<<28`. -/
def putKey (index slot : Nat) : Nat := slot ||| index <<< 28

/-- `x &&& 0xfff` is reduction modulo `2 ^ 12`. -/
theorem land_fff_eq_mod (x : Nat) : x &&& 0xfff = x % 4096 := by
  have h1 : (0xfff : Nat) = 2 ^ 12 - 1 := by norm_num
  have h2 : (4096 : Nat) = 2 ^ 12 := by norm_num
  rw [h1, h2, Nat.and_pow_two_sub_one_eq_mod]

/-- `x &&& 0x0FFFFFFF` is reduction modulo `2 ^ 28`. -/
theorem land_0fffffff_eq_mod (x : Nat) : x &&& 0x0FFFFFFF = x % 2 ^ 28 := by
  have h1 : (0x0FFFFFFF : Nat) = 2 ^ 28 - 1 := by norm_num
  rw [h1, Nat.and_pow_two_sub_one_eq_mod]

/-- `x &&& 0x00FFFFFF` is reduction modulo `2 ^ 24`. -/
theorem land_00ffffff_eq_mod (x : Nat) : x &&& 0x00FFFFFF = x % 2 ^ 24 := by
  have h1 : (0x00FFFFFF : Nat) = 2 ^ 24 - 1 := by norm_num
  rw [h1, Nat.and_pow_two_sub_one_eq_mod]

/-- For slot offsets that fit in 28 bits, the bitwise-or key encoding of
`Put` coincides with plain arithmetic. -/
theorem putKey_eq_add (index slot : Nat) (h : slot < 2 ^ 28) :
    putKey index slot = 2 ^ 28 * index + slot := by
  unfold putKey
  rw [Nat.shiftLeft_eq, Nat.mul_comm index, Nat.lor_comm, ← Nat.mul_add_lt_is_or h]

theorem getShelfIndex_putKey (index slot : Nat) (hi : index < 4096)
    (h : slot < 2 ^ 28) : getShelfIndex (putKey index slot) = index := by
  unfold getShelfIndex
  rw [putKey_eq_add index slot h, Nat.shiftRight_eq_div_pow,
    Nat.mul_add_div (by norm_num), Nat.div_eq_of_lt h, Nat.add_zero,
    land_fff_eq_mod, Nat.mod_eq_of_lt hi]

theorem getLocalOffset_putKey (index slot : Nat) (h : slot < 2 ^ 28) :
    getLocalOffset (putKey index slot) = slot := by
  unfold getLocalOffset
  rw [putKey_eq_add index slot h, land_0fffffff_eq_mod, Nat.mul_add_mod,
    Nat.mod_eq_of_lt h]

/-- C5: for every shelf index < 4096 and slot offset < 2^28, decoding the
key produced by `Put` with `Get`'s decomposition recovers the pair, and
re-encoding the decoded pair reproduces the key exactly. -/
theorem key_codec_roundtrip (index slot : Nat) (hi : index < 4096)
    (ho : slot < 2 ^ 28) :
    getShelfIndex (putKey index slot) = index ∧
    getLocalOffset (putKey index slot) = slot ∧
    putKey (getShelfIndex (putKey index slot)) (getLocalOffset (putKey index slot)) =
      putKey index slot := by
  refine ⟨getShelfIndex_putKey index slot hi ho, getLocalOffset_putKey index slot ho, ?_⟩
  rw [getShelfIndex_putKey index slot hi ho, getLocalOffset_putKey index slot ho]

/-- C5 witness: the round-trip at shelf index 3, slot offset 5. -/
theorem key_codec_roundtrip_witness :
    getShelfIndex (putKey 3 5) = 3 ∧
    getLocalOffset (putKey 3 5) = 5 ∧
    putKey (getShelfIndex (putKey 3 5)) (getLocalOffset (putKey 3 5)) = putKey 3 5 :=
  key_codec_roundtrip 3 5 (by norm_num) (by norm_num)

/-- `Get`'s shelf index only depends on key bits below 40. -/
theorem getShelfIndex_eq_mod (k : Nat) : getShelfIndex k = k % 2 ^ 40 / 2 ^ 28 := by
  unfold getShelfIndex
  rw [Nat.shiftRight_eq_div_pow, land_fff_eq_mod]
  have h2 : (4096 : Nat) = 2 ^ 12 := by norm_num
  rw [h2, ← Nat.mod_mul_right_div_self]
  norm_num

/-- C10: Get and Delete ignore key bits 40 and above — two keys that agree
on their low 40 bits decode to the same shelf index and the same local
offset under both operations' decompositions. -/
theorem high_key_bits_ignored (k1 k2 : Nat) (h : k1 % 2 ^ 40 = k2 % 2 ^ 40) :
    getShelfIndex k1 = getShelfIndex k2 ∧
    getLocalOffset k1 = getLocalOffset k2 ∧
    deleteShelfIndex k1 = deleteShelfIndex k2 ∧
    deleteLocalOffset k1 = deleteLocalOffset k2 := by
  have hdvd28 : (2 : Nat) ^ 28 ∣ 2 ^ 40 := pow_dvd_pow 2 (by norm_num)
  have hdvd24 : (2 : Nat) ^ 24 ∣ 2 ^ 40 := pow_dvd_pow 2 (by norm_num)
  have hoff : k1 % 2 ^ 28 = k2 % 2 ^ 28 := by
    rw [← Nat.mod_mod_of_dvd k1 hdvd28, ← Nat.mod_mod_of_dvd k2 hdvd28, h]
  have hoff24 : k1 % 2 ^ 24 = k2 % 2 ^ 24 := by
    rw [← Nat.mod_mod_of_dvd k1 hdvd24, ← Nat.mod_mod_of_dvd k2 hdvd24, h]
  refine ⟨?_, ?_, ?_, ?_⟩
  · rw [getShelfIndex_eq_mod, getShelfIndex_eq_mod, h]
  · rw [getLocalOffset, getLocalOffset, land_0fffffff_eq_mod, land_0fffffff_eq_mod, hoff]
  · show getShelfIndex k1 = getShelfIndex k2
    rw [getShelfIndex_eq_mod, getShelfIndex_eq_mod, h]
  · rw [deleteLocalOffset, deleteLocalOffset, land_00ffffff_eq_mod,
      land_00ffffff_eq_mod, hoff24]

/-- C10 witness: keys `2 ^ 40 + 7` and `7` agree on their low 40 bits and
decode identically under both operations. -/
theorem high_key_bits_ignored_witness :
    getShelfIndex (2 ^ 40 + 7) = getShelfIndex 7 ∧
    getLocalOffset (2 ^ 40 + 7) = getLocalOffset 7 ∧
    deleteShelfIndex (2 ^ 40 + 7) = deleteShelfIndex 7 ∧
    deleteLocalOffset (2 ^ 40 + 7) = deleteLocalOffset 7 :=
  high_key_bits_ignored (2 ^ 40 + 7) 7 (by norm_num)

/-- C1 (code bug): `Put` can return key 16777216 = 2^24 (shelf 0, slot
offset 2^24); `Get` decodes its local offset as 2^24, but `Delete`'s
24-bit mask decodes it as 0 — `Delete` does not address the slot `Get`
addresses, contradicting the claimed identical decomposition. -/
theorem delete_mask_mismatch :
    putKey 0 16777216 = 16777216 ∧
    getShelfIndex 16777216 = 0 ∧
    getLocalOffset 16777216 = 16777216 ∧
    deleteShelfIndex 16777216 = 0 ∧
    deleteLocalOffset 16777216 = 0 ∧
    deleteLocalOffset 16777216 ≠ getLocalOffset 16777216 := by
  refine ⟨?_, ?_, ?_, ?_, ?_, ?_⟩
  · unfold putKey
    decide
  · unfold getShelfIndex
    decide
  · rw [getLocalOffset, land_0fffffff_eq_mod]
    norm_num
  · unfold deleteShelfIndex
    decide
  · rw [deleteLocalOffset, land_00ffffff_eq_mod]
    norm_num
  · rw [deleteLocalOffset, getLocalOffset, land_00ffffff_eq_mod, land_0fffffff_eq_mod]
    norm_num

/-- `database.Get` (db.go lines 139-142): decomposes the key and indexes
`db.shelves[id]` with no bounds check; in Go an out-of-range slice index
is a runtime panic, modelled here as `none`.  The shelf's own `Get` is
abstracted as a function from the local offset to a result. -/
def dbGet (shelves : List (Nat → Except String (List Nat))) (key : Nat) :
    Option (Except String (List Nat)) :=
  match shelves.get? (getShelfIndex key) with
  | some sh => some (sh (getLocalOffset key))
  | none => none

/-- `database.Delete` (db.go lines 148-151): same shape as `Get`, with the
24-bit offset mask; an out-of-range index panics (`none`). -/
def dbDelete (shelves : List (Nat → Except String Unit)) (key : Nat) :
    Option (Except String Unit) :=
  match shelves.get? (deleteShelfIndex key) with
  | some sh => some (sh (deleteLocalOffset key))
  | none => none

/-- C6 (code bug): on a database with one shelf, the key `2 ^ 28` decodes
to shelf index 1, which is out of range; `Get` and `Delete` hit the
out-of-bounds slice access (a Go runtime panic, `none` in the model)
instead of returning an index error to the caller. -/
theorem out_of_range_shelf_index_panics :
    getShelfIndex (2 ^ 28) = 1 ∧
    dbGet [fun _ => Except.ok []] (2 ^ 28) = none ∧
    dbDelete [fun _ => Except.ok ()] (2 ^ 28) = none := by
  have h : getShelfIndex (2 ^ 28) = 1 := by decide
  have h2 : deleteShelfIndex (2 ^ 28) = 1 := by decide
  refine ⟨h, ?_, ?_⟩
  · unfold dbGet
    rw [h]
    rfl
  · unfold dbDelete
    rw [h2]
    rfl

/-- One call of the closure returned by `SlotSizeLinear(size, count)`
(db.go lines 62-69), for 1-indexed call number `c`: the captured counter
`i` holds `c` at that call, which returns `uint32(size*i)` and advances
`i` to `c + 1` before computing the done flag `i >= count`, i.e.
`count ≤ c + 1`.  Go's `uint32(x)` conversion keeps the low 32 bits,
`x mod 2 ^ 32`. -/
def slotSizeLinearCall (size count : Int) (c : Nat) : Nat × Bool :=
  (((size * (c : Int)) % (2 ^ 32 : Int)).toNat, decide (count ≤ (c : Int) + 1))

/-- C3 (code bug): `SlotSizeLinear(10, 3)` yields `(10,false)` then
`(20,true)` — the done flag fires one call early (when `i + 1 ≥ count`
rather than `i ≥ count`), so only two sizes are ever produced instead of
the documented three ending in `(30,true)`. -/
theorem slotSizeLinear_done_one_call_early :
    slotSizeLinearCall 10 3 1 = (10, false) ∧
    slotSizeLinearCall 10 3 2 = (20, true) ∧
    slotSizeLinearCall 10 3 2 ≠ (20, false) := by
  refine ⟨?_, ?_, ?_⟩ <;> decide

/-- The mutable `uint32` state `v` captured by the closure returned by
`SlotSizePowerOfTwo` (db.go lines 48-58), after `i` calls: it starts at
`min` and each call runs `v += v` (wrapping modulo `2 ^ 32`). -/
def powTwoState (min : Nat) : Nat → Nat
  | 0 => min
  | i + 1 => (powTwoState min i + powTwoState min i) % 2 ^ 32

/-- The `(size, done)` pair returned by the `i`-th call (0-indexed) of the
`SlotSizePowerOfTwo` closure: `ret := v; v += v; return ret, ret >= max`. -/
def powTwoCall (min max : Nat) (i : Nat) : Nat × Bool :=
  (powTwoState min i, decide (max ≤ powTwoState min i))

/-- `SlotSizePowerOfTwo(min, max)` (db.go lines 48-58): panics (modelled
as `none`) when `min >= max`, immediately at construction before any
call; otherwise returns the generator closure. -/
def SlotSizePowerOfTwo (min max : Nat) : Option (Nat → Nat × Bool) :=
  if max ≤ min then none else some (powTwoCall min max)

/-- C8: `SlotSizePowerOfTwo(10,100)` yields `(10,false)`, `(20,false)`,
`(40,false)`, `(80,false)`, `(160,true)` on its first five calls; in
general the first call yields `min`, each later call doubles the previous
value (exactly, absent `uint32` overflow), the done flag is true exactly
when the yielded value is `≥ max`, and construction with `min ≥ max` is a
fatal error (panic) detected before any call. -/
theorem slotSizePowerOfTwo_spec :
    (∀ min max : Nat, max ≤ min → SlotSizePowerOfTwo min max = none) ∧
    (∀ min max : Nat, min < max → SlotSizePowerOfTwo min max = some (powTwoCall min max)) ∧
    (∀ min max : Nat, powTwoCall min max 0 = (min, decide (max ≤ min))) ∧
    (∀ min max i : Nat, 2 * powTwoState min i < 2 ^ 32 →
      (powTwoCall min max (i + 1)).1 = 2 * (powTwoCall min max i).1) ∧
    (∀ min max i : Nat, (powTwoCall min max i).2 = decide (max ≤ (powTwoCall min max i).1)) ∧
    (List.range 5).map (powTwoCall 10 100) =
      [(10, false), (20, false), (40, false), (80, false), (160, true)] := by
  refine ⟨?_, ?_, ?_, ?_, ?_, ?_⟩
  · intro min max h
    unfold SlotSizePowerOfTwo
    rw [if_pos h]
  · intro min max h
    unfold SlotSizePowerOfTwo
    rw [if_neg (by omega)]
  · intro min max
    rfl
  · intro min max i h
    show powTwoState min (i + 1) = 2 * powTwoState min i
    show (powTwoState min i + powTwoState min i) % 2 ^ 32 = 2 * powTwoState min i
    rw [Nat.mod_eq_of_lt (by omega)]
    omega
  · intro min max i
    rfl
  · decide

/-- C8 witness: both construction outcomes and exact doubling at concrete
inputs. -/
theorem slotSizePowerOfTwo_spec_witness :
    SlotSizePowerOfTwo 10 10 = none ∧
    SlotSizePowerOfTwo 10 100 = some (powTwoCall 10 100) ∧
    (powTwoCall 10 100 1).1 = 2 * (powTwoCall 10 100 0).1 :=
  ⟨slotSizePowerOfTwo_spec.1 10 10 (by decide),
   slotSizePowerOfTwo_spec.2.1 10 100 (by decide),
   slotSizePowerOfTwo_spec.2.2.2.1 10 100 0 (by decide)⟩

/-- The loop of Go's `sort.Search(n, f)` (invoked by `database.Put`, db.go
line 125): maintains `i < j`, probes `h = (i+j)/2`, narrows to `[i, h]`
when `f h` holds and to `[h+1, j]` otherwise, returning `i` on exit. -/
def sortSearchAux (f : Nat → Bool) (i j : Nat) : Nat :=
  if h : i < j then
    if f ((i + j) / 2) then sortSearchAux f i ((i + j) / 2)
    else sortSearchAux f ((i + j) / 2 + 1) j
  else i
termination_by j - i
decreasing_by
  · omega
  · omega

/-- `sort.Search(n, f)` starts the loop at `i, j := 0, n`. -/
def sortSearch (n : Nat) (f : Nat → Bool) : Nat := sortSearchAux f 0 n

theorem sortSearchAux_spec (f : Nat → Bool) (n : Nat)
    (hmono : ∀ a b, a ≤ b → b < n → f a = true → f b = true) :
    ∀ d i j, j - i ≤ d → j ≤ n → i ≤ j → (∀ k, k < i → f k = false) →
      i ≤ sortSearchAux f i j ∧ sortSearchAux f i j ≤ j ∧
      (∀ k, k < sortSearchAux f i j → f k = false) ∧
      (sortSearchAux f i j < j → f (sortSearchAux f i j) = true) := by
  intro d
  induction d with
  | zero =>
    intro i j h1 h2 h3 hpre
    rw [sortSearchAux]
    rw [dif_neg (by omega)]
    exact ⟨Nat.le_refl i, h3, hpre, fun h => absurd h (by omega)⟩
  | succ d ih =>
    intro i j h1 h2 h3 hpre
    rw [sortSearchAux]
    by_cases hij : i < j
    · rw [dif_pos hij]
      set m := (i + j) / 2 with hm
      have hmj : m < j := by omega
      have him : i ≤ m := by omega
      by_cases hf : f m = true
      · rw [if_pos hf]
        obtain ⟨ha, hb, hc, hd2⟩ := ih i m (by omega) (by omega) him hpre
        refine ⟨ha, by omega, hc, fun _ => ?_⟩
        rcases Nat.lt_or_ge (sortSearchAux f i m) m with hlt2 | hge
        · exact hd2 hlt2
        · have he : sortSearchAux f i m = m := by omega
          rw [he]
          exact hf
      · rw [if_neg hf]
        have hpre' : ∀ k, k < m + 1 → f k = false := by
          intro k hk
          by_cases hki : k < i
          · exact hpre k hki
          · cases hfk : f k with
            | false => rfl
            | true => exact absurd (hmono k m (by omega) (by omega) hfk) hf
        obtain ⟨ha, hb, hc, hd2⟩ := ih (m + 1) j (by omega) h2 (by omega) hpre'
        exact ⟨by omega, hb, hc, hd2⟩
    · rw [dif_neg hij]
      exact ⟨Nat.le_refl i, h3, hpre, fun h => absurd h hij⟩

/-- For an upward-closed predicate, `sort.Search` returns the least index
satisfying it, or `n` when none does. -/
theorem sortSearch_spec (n : Nat) (f : Nat → Bool)
    (hmono : ∀ a b, a ≤ b → b < n → f a = true → f b = true) :
    sortSearch n f ≤ n ∧ (∀ k, k < sortSearch n f → f k = false) ∧
    (sortSearch n f < n → f (sortSearch n f) = true) := by
  have h := sortSearchAux_spec f n hmono n 0 n (by omega) (Nat.le_refl n)
    (Nat.zero_le n) (fun k hk => absurd hk (Nat.not_lt_zero k))
  exact ⟨h.2.1, h.2.2.1, h.2.2.2⟩

/-- The shelf index `database.Put` computes (db.go lines 125-127):
`sort.Search(len(db.shelves), func(i) { len(data)+itemHeaderSize <=
int(db.shelves[i].slotSize) })`, over the list of shelf slot sizes. -/
def putIndex (sizes : List Nat) (dataLen : Nat) : Nat :=
  sortSearch sizes.length fun i => decide (dataLen + itemHeaderSize ≤ sizes.getD i 0)

/-- `database.Put` (db.go lines 122-136): errors with "no shelf found"
when the search runs off the end; otherwise delegates to the found
shelf's `Put` (abstracted as `shelfPut`, mapping a shelf index to that
shelf's result) and encodes the returned slot with the shelf index.  The
second component records which shelves had `Put` invoked on them. -/
def putModel (shelfPut : Nat → Except String Nat) (sizes : List Nat) (dataLen : Nat) :
    Except String Nat × List Nat :=
  if putIndex sizes dataLen = sizes.length then
    (Except.error ("no shelf found for size " ++ toString dataLen), [])
  else
    match shelfPut (putIndex sizes dataLen) with
    | Except.error e => (Except.error e, [putIndex sizes dataLen])
    | Except.ok slot => (Except.ok (putKey (putIndex sizes dataLen) slot),
        [putIndex sizes dataLen])

theorem putIndex_mono (sizes : List Nat) (dataLen : Nat)
    (hsort : List.Pairwise (· < ·) sizes) :
    ∀ a b, a ≤ b → b < sizes.length →
      decide (dataLen + itemHeaderSize ≤ sizes.getD a 0) = true →
      decide (dataLen + itemHeaderSize ≤ sizes.getD b 0) = true := by
  intro a b hab hb ha
  rw [decide_eq_true_eq] at ha ⊢
  have hgetD : sizes.getD a 0 ≤ sizes.getD b 0 := by
    rcases Nat.eq_or_lt_of_le hab with heq | hlt
    · rw [heq]
    · rw [List.getD_eq_getElem sizes 0 (by omega), List.getD_eq_getElem sizes 0 hb]
      exact Nat.le_of_lt (List.pairwise_iff_getElem.mp hsort a b (by omega) hb hlt)
  omega

/-- C4: on a database whose shelf slot sizes are strictly ascending,
`Put` delegates to exactly the shelf at the smallest index whose slot
size is at least `len(payload) + itemHeaderSize`, and when no shelf is
large enough it returns the "no shelf found" error without invoking any
shelf's `Put`. -/
theorem put_best_fit (shelfPut : Nat → Except String Nat) (sizes : List Nat)
    (dataLen : Nat) (hsort : List.Pairwise (· < ·) sizes) :
    ((∃ i, i < sizes.length ∧ dataLen + itemHeaderSize ≤ sizes.getD i 0) →
      ∀ i, (putModel shelfPut sizes dataLen).2 = [i] ↔
        i < sizes.length ∧ dataLen + itemHeaderSize ≤ sizes.getD i 0 ∧
          ∀ j, j < i → ¬ dataLen + itemHeaderSize ≤ sizes.getD j 0) ∧
    ((∀ i, i < sizes.length → ¬ dataLen + itemHeaderSize ≤ sizes.getD i 0) →
      putModel shelfPut sizes dataLen =
        (Except.error ("no shelf found for size " ++ toString dataLen), [])) := by
  have hspec := sortSearch_spec sizes.length
    (fun i => decide (dataLen + itemHeaderSize ≤ sizes.getD i 0))
    (putIndex_mono sizes dataLen hsort)
  constructor
  · rintro ⟨i0, hi0, hfit0⟩ i
    have hrn : putIndex sizes dataLen < sizes.length := by
      rcases Nat.lt_or_ge (putIndex sizes dataLen) sizes.length with hlt | hge
      · exact hlt
      · exfalso
        have := hspec.2.1 i0 (by
          have := hspec.1
          unfold putIndex at *
          omega)
        rw [decide_eq_false_iff_not] at this
        exact this hfit0
    have h2 : (putModel shelfPut sizes dataLen).2 = [putIndex sizes dataLen] := by
      unfold putModel
      rw [if_neg (by omega)]
      cases shelfPut (putIndex sizes dataLen) with
      | error e => rfl
      | ok slot => rfl
    constructor
    · intro hlist
      rw [h2] at hlist
      have heq : putIndex sizes dataLen = i := (List.cons.injEq _ _ _ _).mp hlist |>.1
      subst heq
      refine ⟨hrn, ?_, ?_⟩
      · have := hspec.2.2 hrn
        rw [decide_eq_true_eq] at this
        exact this
      · intro j hj
        have := hspec.2.1 j hj
        rw [decide_eq_false_iff_not] at this
        exact this
    · rintro ⟨hi, hfit, hleast⟩
      have heq : putIndex sizes dataLen = i := by
        rcases Nat.lt_trichotomy (putIndex sizes dataLen) i with hlt | heq | hgt
        · exfalso
          have hffit := hspec.2.2 hrn
          rw [decide_eq_true_eq] at hffit
          exact hleast _ hlt hffit
        · exact heq
        · exfalso
          have := hspec.2.1 i hgt
          rw [decide_eq_false_iff_not] at this
          exact this hfit
      rw [h2, heq]
  · intro hno
    have hr : putIndex sizes dataLen = sizes.length := by
      rcases Nat.lt_or_ge (putIndex sizes dataLen) sizes.length with hlt | hge
      · exfalso
        have := hspec.2.2 hlt
        rw [decide_eq_true_eq] at this
        exact hno _ hlt this
      · have := hspec.1
        unfold putIndex at *
        omega
    unfold putModel
    rw [if_pos hr]

/-- C4 witness: with shelves of slot sizes 10 and 20 and a 10-byte
payload (needing 14 bytes), `Put` delegates to shelf 1 only; with a
30-byte payload no shelf fits and the "no shelf found" error is returned
with no shelf invoked. -/
theorem put_best_fit_witness :
    (putModel (fun _ => Except.ok 0) [10, 20] 10).2 = [1] ∧
    putModel (fun _ => Except.ok 0) [10, 20] 30 =
      (Except.error ("no shelf found for size " ++ toString 30), []) := by
  constructor
  · exact ((put_best_fit (fun _ => Except.ok 0) [10, 20] 10 (by decide)).1
      ⟨1, by decide, by decide⟩ 1).mpr ⟨by decide, by decide, by decide⟩
  · exact (put_best_fit (fun _ => Except.ok 0) [10, 20] 30 (by decide)).2 (by decide)

/-- The loop of `Open` (db.go lines 89-117), driven by the finite list
`yields` of `(size, done)` pairs the slot-size generator will produce
(`none` = the modelled yield list ran out with the loop still going).
`shelfOk k` abstracts whether the `k`-th `openShelf` call succeeds (shelf
I/O lives outside `src/`).  Shelves are represented by their slot size.
Besides `Open`'s result (the database's shelf list, or the error), the
model returns the shelves still open at the moment `Open` returns: on
the validation and shelf-count error paths the code returns without
closing (db.go lines 100, 111), on the `openShelf` failure path it first
runs `db.Close()` (line 105), and on success the database's shelves are
open by design. -/
def openLoop (shelfOk : Nat → Bool) :
    List (Nat × Bool) → Nat → Nat → List Nat →
    Option (Except String (List Nat) × List Nat)
  | [], _, _, _ => none
  | (slotSize, d) :: rest, prevSlotSize, prevId, shelves =>
    if slotSize ≤ prevSlotSize then
      some (Except.error "slot sizes must be in increasing order", shelves)
    else if shelfOk shelves.length then
      if (shelves.length + 1) % 4096 < prevId then
        some (Except.error ("too many shelves (" ++ toString (shelves.length + 1) ++ ")"),
          shelves ++ [slotSize])
      else if d then
        some (Except.ok (shelves ++ [slotSize]), shelves ++ [slotSize])
      else
        openLoop shelfOk rest slotSize ((shelves.length + 1) % 4096) (shelves ++ [slotSize])
    else
      some (Except.error "failed to open shelf", [])

/-- `Open` (db.go line 89) starts the loop with no shelves,
`prevSlotSize = 0` and `prevId = 0`. -/
def openModel (shelfOk : Nat → Bool) (yields : List (Nat × Bool)) :
    Option (Except String (List Nat) × List Nat) :=
  openLoop shelfOk yields 0 0 []

theorem openLoop_shelfCount :
    ∀ (yields : List (Nat × Bool)) (shelfOk : Nat → Bool) (prevSlotSize : Nat)
      (shelves db leaked : List Nat),
      shelves.length < 4096 →
      openLoop shelfOk yields prevSlotSize (shelves.length % 4096) shelves =
        some (Except.ok db, leaked) →
      db.length < 4096 := by
  intro yields
  induction yields with
  | nil =>
    intro shelfOk prev shelves db leaked hlen h
    exact absurd h (by simp [openLoop])
  | cons yd rest ih =>
    intro shelfOk prev shelves db leaked hlen h
    obtain ⟨slotSize, d⟩ := yd
    simp only [openLoop] at h
    by_cases h1 : slotSize ≤ prev
    · rw [if_pos h1] at h
      exact absurd h (by simp)
    · rw [if_neg h1] at h
      by_cases h2 : shelfOk shelves.length = true
      · rw [if_pos h2] at h
        by_cases h3 : (shelves.length + 1) % 4096 < shelves.length % 4096
        · rw [if_pos h3] at h
          exact absurd h (by simp)
        · rw [if_neg h3] at h
          have hlt : shelves.length + 1 < 4096 := by
            by_contra hc
            have h4096 : shelves.length + 1 = 4096 := by omega
            apply h3
            rw [h4096]
            omega
          by_cases h4 : d = true
          · rw [if_pos h4] at h
            have hdb : db = shelves ++ [slotSize] := by
              have := (Option.some.injEq _ _).mp h
              have := (Prod.mk.injEq _ _ _ _).mp this
              exact ((Except.ok.injEq _ _).mp this.1).symm
            rw [hdb]
            simpa using hlt
          · rw [if_neg h4] at h
            have harg : (shelves.length + 1) % 4096 = (shelves ++ [slotSize]).length % 4096 := by
              simp
            rw [harg] at h
            exact ih shelfOk slotSize (shelves ++ [slotSize]) db leaked (by simpa using hlt) h
      · rw [if_neg h2] at h
        exact absurd h (by simp)

/-- C7: every database successfully returned by `Open` contains at most
4096 shelves — the masked-count check errors out before a database whose
shelf count exceeds the 12-bit ceiling can be returned. -/
theorem open_shelf_count_bounded (shelfOk : Nat → Bool) (yields : List (Nat × Bool))
    (db leaked : List Nat) (h : openModel shelfOk yields = some (Except.ok db, leaked)) :
    db.length ≤ 4096 := by
  have h0 : openLoop shelfOk yields 0 (([] : List Nat).length % 4096) [] =
      some (Except.ok db, leaked) := h
  have := openLoop_shelfCount yields shelfOk 0 [] db leaked (by simp) h0
  omega

/-- C7 witness: a one-shelf open succeeds and the bound holds. -/
theorem open_shelf_count_bounded_witness : ([10] : List Nat).length ≤ 4096 :=
  open_shelf_count_bounded (fun _ => true) [(10, true)] [10] [10] rfl

/-- C2 counterexample: opening with the generator yielding
`(30,false),(20,true)` (non-increasing) does return the configuration
error, but the already-opened size-30 shelf is still open when `Open`
returns — the claimed "no open resources" is false. -/
theorem open_nonincreasing_leaks_shelf :
    openModel (fun _ => true) [(30, false), (20, true)] =
      some (Except.error "slot sizes must be in increasing order", [30]) ∧
    ([30] : List Nat) ≠ [] := by
  constructor
  · rfl
  · simp

/-- Running `Open`'s loop through a well-behaved prefix `pre` of
generator yields — sizes strictly increasing from `prevSize`, no done
flag set, every `openShelf` call succeeding, shelf count staying under
4096 — opens one shelf per yield and continues the loop on the remaining
yields with the correspondingly advanced state. -/
theorem openLoop_segment (shelfOk : Nat → Bool) (rest2 : List (Nat × Bool)) :
    ∀ (pre : List (Nat × Bool)) (prevSize prevId : Nat) (shelves : List Nat),
      prevId = shelves.length % 4096 →
      shelves.length + pre.length < 4096 →
      (∀ p ∈ pre, p.2 = false) →
      List.Chain (· < ·) prevSize (pre.map Prod.fst) →
      (∀ k, k < pre.length → shelfOk (shelves.length + k) = true) →
      openLoop shelfOk (pre ++ rest2) prevSize prevId shelves =
        openLoop shelfOk rest2 ((pre.map Prod.fst).getLastD prevSize)
          ((shelves.length + pre.length) % 4096) (shelves ++ pre.map Prod.fst) := by
  intro pre
  induction pre with
  | nil =>
    intro prevSize prevId shelves hprev h1 h2 h3 h4
    simp [hprev]
  | cons p pre2 ih =>
    intro prevSize prevId shelves hprev h1 h2 h3 h4
    obtain ⟨a, f⟩ := p
    have hf : f = false := h2 (a, f) (List.mem_cons_self _ _)
    subst hf
    have hmap : ((a, false) :: pre2).map Prod.fst = a :: pre2.map Prod.fst := rfl
    rw [hmap] at h3 ⊢
    rw [List.chain_cons] at h3
    obtain ⟨hpa, hchain2⟩ := h3
    have hok0 : shelfOk shelves.length = true := by simpa using h4 0 (by simp)
    have hlen1 : shelves.length + 1 < 4096 := by
      rw [List.length_cons] at h1
      omega
    rw [List.cons_append]
    simp only [openLoop]
    rw [if_neg (show ¬ a ≤ prevSize by omega)]
    rw [if_pos hok0]
    rw [if_neg (show ¬ (shelves.length + 1) % 4096 < prevId by omega)]
    rw [if_neg Bool.false_ne_true]
    rw [ih a ((shelves.length + 1) % 4096) (shelves ++ [a]) (by simp)
      (by rw [List.length_cons] at h1; simp only [List.length_append,
        List.length_singleton, List.length_nil]; omega)
      (fun q hq => h2 q (List.mem_cons_of_mem _ hq)) hchain2
      (fun k hk => by
        have h5 := h4 (k + 1) (by rw [List.length_cons]; omega)
        rw [List.length_append, List.length_singleton,
          show shelves.length + 1 + k = shelves.length + (k + 1) by omega]
        exact h5)]
    rw [List.getLastD_cons]
    rw [show (shelves ++ [a]) ++ pre2.map Prod.fst = shelves ++ a :: pre2.map Prod.fst
      by simp]
    rw [show ((shelves ++ [a]).length + pre2.length) % 4096 =
        (shelves.length + ((a, false) :: pre2).length) % 4096 by
      simp only [List.length_append, List.length_singleton, List.length_cons,
        List.length_nil]
      omega]

/-- C2 amended: for every generator run whose yielded sizes stop strictly
increasing at some yield — after a prefix of non-final, strictly
increasing yields each of whose `openShelf` calls succeeded, fewer than
4096 so far — `Open` returns the increasing-order configuration error
with every shelf opened in that call still open (none closed); the
already-opened shelves are closed only on the other error path, when a
subsequent `openShelf` call fails, in which case `Open` returns that
error with no shelf left open. -/
theorem open_nonincreasing_error :
    (∀ (shelfOk : Nat → Bool) (pre rest : List (Nat × Bool)) (b : Nat) (d : Bool),
      pre.length < 4096 →
      (∀ p ∈ pre, p.2 = false) →
      List.Chain (· < ·) 0 (pre.map Prod.fst) →
      (∀ k, k < pre.length → shelfOk k = true) →
      b ≤ (pre.map Prod.fst).getLastD 0 →
      openModel shelfOk (pre ++ (b, d) :: rest) =
        some (Except.error "slot sizes must be in increasing order", pre.map Prod.fst)) ∧
    (∀ (shelfOk : Nat → Bool) (pre rest : List (Nat × Bool)) (s : Nat) (d : Bool),
      pre.length < 4096 →
      (∀ p ∈ pre, p.2 = false) →
      List.Chain (· < ·) 0 (pre.map Prod.fst) →
      (∀ k, k < pre.length → shelfOk k = true) →
      shelfOk pre.length = false →
      (pre.map Prod.fst).getLastD 0 < s →
      openModel shelfOk (pre ++ (s, d) :: rest) =
        some (Except.error "failed to open shelf", [])) := by
  constructor
  · intro shelfOk pre rest b d hcount hflags hchain hok hviol
    unfold openModel
    rw [openLoop_segment shelfOk ((b, d) :: rest) pre 0 0 [] rfl
      (by simpa using hcount) hflags hchain (fun k hk => by simpa using hok k hk)]
    simp only [openLoop]
    rw [if_pos hviol]
    simp
  · intro shelfOk pre rest s d hcount hflags hchain hok hfail hgt
    unfold openModel
    rw [openLoop_segment shelfOk ((s, d) :: rest) pre 0 0 [] rfl
      (by simpa using hcount) hflags hchain (fun k hk => by simpa using hok k hk)]
    simp only [openLoop]
    rw [if_neg (show ¬ s ≤ (pre.map Prod.fst).getLastD 0 by omega)]
    rw [show (([] : List Nat) ++ pre.map Prod.fst).length = pre.length by simp]
    rw [hfail, if_neg Bool.false_ne_true]

/-- C2 amended witness: a third-yield violation after two good yields
leaks both opened shelves, and an `openShelf` failure at the second
shelf leaves no shelf open. -/
theorem open_nonincreasing_error_witness :
    openModel (fun _ => true) [(10, false), (20, false), (20, true)] =
      some (Except.error "slot sizes must be in increasing order", [10, 20]) ∧
    openModel (fun k => decide (k < 1)) [(10, false), (20, true)] =
      some (Except.error "failed to open shelf", []) := by
  constructor
  · exact open_nonincreasing_error.1 (fun _ => true) [(10, false), (20, false)] []
      20 true (by decide) (by decide)
      (by simp [List.chain_cons]) (fun k _ => rfl) (by decide)
  · exact open_nonincreasing_error.2 (fun k => decide (k < 1)) [(10, false)] []
      20 true (by decide) (by decide)
      (by simp [List.chain_cons]) (fun k hk => decide_eq_true hk) rfl (by decide)

/-- `database.Close` (db.go lines 183-191): walks the shelves in order,
closing each one; a failed close overwrites the running `err`, which is
returned at the end.  Shelf close outcomes are abstracted as
`Option String` (`some e` = that shelf's `Close` failed with `e`).  The
first component counts how many shelf `Close` calls were made. -/
def dbCloseAux (err : Option String) : List (Option String) → Nat × Option String
  | [] => (0, err)
  | e :: rest =>
    let r := dbCloseAux (match e with | some s => some s | none => err) rest
    (r.1 + 1, r.2)

/-- `database.Close` starts with `err = nil`. -/
def dbClose (closes : List (Option String)) : Nat × Option String :=
  dbCloseAux none closes

theorem getLast?_cons_orElse {α : Type} (a : α) :
    ∀ l : List α, (a :: l).getLast? = (l.getLast? <|> some a)
  | [] => by simp
  | b :: t => by
    rw [List.getLast?_cons_cons, getLast?_cons_orElse b t]
    cases t.getLast? <;> simp

theorem dbCloseAux_spec :
    ∀ (closes : List (Option String)) (err : Option String),
      (dbCloseAux err closes).1 = closes.length ∧
      (dbCloseAux err closes).2 = ((closes.filterMap id).getLast? <|> err) := by
  intro closes
  induction closes with
  | nil =>
    intro err
    simp [dbCloseAux]
  | cons e rest ih =>
    intro err
    cases e with
    | none =>
      have h := ih err
      simp only [dbCloseAux, List.length_cons, List.filterMap_cons, id]
      exact ⟨by rw [h.1], by rw [h.2]⟩
    | some s =>
      have h := ih (some s)
      simp only [dbCloseAux, List.length_cons, List.filterMap_cons, id]
      refine ⟨by rw [h.1], ?_⟩
      rw [h.2, getLast?_cons_orElse]
      cases (rest.filterMap id).getLast? <;> simp

/-- C9: `database.Close` invokes `Close` on every shelf (one call per
shelf, continuing past failures), and returns the error of the last
shelf whose close failed (`nil` when none failed). -/
theorem close_asks_all_returns_last_failure (closes : List (Option String)) :
    (dbClose closes).1 = closes.length ∧
    (dbClose closes).2 = (closes.filterMap id).getLast? := by
  have h := dbCloseAux_spec closes none
  refine ⟨h.1, ?_⟩
  rw [dbClose, h.2]
  cases (closes.filterMap id).getLast? <;> simp

end Billy
